import Mathlib

/-!
Shallow embedding of `lb.py`, a minimal sequential TCP load balancer.

The program accepts client connections in a single-threaded loop, reads a
2-byte request prefix with `read_n`, picks a backend by round-robin from a
fixed pool, forwards the request with `socket.sendall`, reads a single
response chunk of up to 4096 bytes, relays it to the client with
`socket.sendall`, and closes the sockets.

Byte streams delivered by the network are modelled as lists of arrival
segments (`List (List Byte)`); a blocking `recv k` consumes up to `k` bytes
from the first available segment, and an exhausted stream models the peer
having closed the connection.  The OS capacities accepted by successive
`send` calls inside one `sendall` are modelled by a schedule `List Nat`;
an exhausted schedule models a send error.  Per-connection I/O outcomes
(connect success, recv success, the two schedules, the two streams) are
collected in `ConnEnv`, and the observable effects of one iteration of the
accept loop in `HandleResult`.
-/

namespace LB

/-- A byte, modelled as a natural number. -/
abbrev Byte := Nat

/-- The backend pool (`lb.py`, lines 5-9). -/
def servers : List (String × Nat) :=
  [("192.168.0.101", 80), ("192.168.0.102", 80), ("192.168.0.103", 80)]

/-- Model of a blocking `conn.recv k` over a byte stream arriving in
segments: return up to `k` bytes from the first available segment, leaving
the unread remainder in place; an exhausted stream (peer closed) yields the
empty chunk. -/
def recv (chunks : List (List Byte)) (k : Nat) : List Byte × List (List Byte) :=
  match chunks with
  | [] => ([], [])
  | c :: rest => (c.take k, if c.drop k = [] then rest else c.drop k :: rest)

/-- `read_n` (`lb.py`, lines 11-18): loop accumulating `recv (n - len data)`
until `n` bytes are collected, or return the partial buffer as soon as a recv
yields the empty chunk (peer closed).  Returns the bytes read and the unread
remainder of the stream. -/
def read_n (chunks : List (List Byte)) (n : Nat) : List Byte × List (List Byte) :=
  if h0 : n = 0 then ([], chunks)
  else
    if hc : (recv chunks n).1 = [] then ([], (recv chunks n).2)
    else
      let r := read_n (recv chunks n).2 (n - (recv chunks n).1.length)
      ((recv chunks n).1 ++ r.1, r.2)
termination_by n
decreasing_by
  have hpos : 0 < (recv chunks n).1.length := List.length_pos.mpr hc
  omega

/-- Model of `socket.sendall` (called at `lb.py` lines 44 and 49): repeatedly
issue `send` calls, each delivering the prefix the OS accepts (`cap` bytes),
until the whole buffer has been delivered; an exhausted capacity schedule
models a send error (exception).  On success, returns the delivered bytes. -/
def sendall (sched : List Nat) (buf : List Byte) : Option (List Byte) :=
  match sched with
  | [] => if buf.length = 0 then some [] else none
  | cap :: rest =>
    if buf.length = 0 then some []
    else
      match sendall rest (buf.drop cap) with
      | none => none
      | some d => some (buf.take cap ++ d)

/-- Modelled from the spec: "a single blocking send call, no loop to guarantee
full delivery" — one best-effort `send` delivering only the prefix the OS
accepts on that single call. -/
def send_single (sched : List Nat) (buf : List Byte) : List Byte :=
  buf.take (sched.headD 0)

/-- I/O environment of a single accepted connection: the client's request
stream, whether the backend `connect` succeeds, the capacity schedule of the
`sendall` to the backend, the backend's response stream, whether the backend
`recv` succeeds, and the capacity schedule of the `sendall` to the client. -/
structure ConnEnv where
  clientChunks : List (List Byte)
  connectOk : Bool
  backendSendSched : List Nat
  backendChunks : List (List Byte)
  recvOk : Bool
  clientSendSched : List Nat

/-- Observable outcome of handling one accepted connection
(`lb.py`, lines 31-55). -/
structure HandleResult where
  rr : Nat
  backendOpened : Bool
  backendIdx : Option Nat
  sentToBackend : List Byte
  sentToClient : List Byte
  backendClosed : Bool
  clientClosed : Bool
  logged : Bool

/-- Body of one accept-loop iteration (`lb.py`, lines 31-55): read the 2-byte
prefix; on a short read close the client and continue (cursor untouched);
otherwise select `sv[rr]`, advance the cursor, connect, forward the request
with `sendall`, read one response chunk of up to 4096 bytes, relay a nonempty
chunk with `sendall`, close the backend socket; any exception is caught and
logged (line 52-53), leaving the backend socket unclosed; the `finally` at
lines 54-55 closes the client socket on every path.  An out-of-range cursor
(only possible when the pool is empty) raises `IndexError` at line 38 before
the cursor advances, and is caught like any other exception. -/
def handle (sv : List (String × Nat)) (rr : Nat) (e : ConnEnv) : HandleResult :=
  let req := (read_n e.clientChunks 2).1
  if req.length ≠ 2 then
    { rr := rr, backendOpened := false, backendIdx := none, sentToBackend := [],
      sentToClient := [], backendClosed := false, clientClosed := true, logged := false }
  else if sv.length ≤ rr then
    { rr := rr, backendOpened := false, backendIdx := none, sentToBackend := [],
      sentToClient := [], backendClosed := false, clientClosed := true, logged := true }
  else
    let rr2 := (rr + 1) % sv.length
    if e.connectOk = false then
      { rr := rr2, backendOpened := true, backendIdx := some rr, sentToBackend := [],
        sentToClient := [], backendClosed := false, clientClosed := true, logged := true }
    else
      match sendall e.backendSendSched req with
      | none =>
        { rr := rr2, backendOpened := true, backendIdx := some rr, sentToBackend := [],
          sentToClient := [], backendClosed := false, clientClosed := true, logged := true }
      | some sent =>
        if e.recvOk = false then
          { rr := rr2, backendOpened := true, backendIdx := some rr, sentToBackend := sent,
            sentToClient := [], backendClosed := false, clientClosed := true, logged := true }
        else
          let resp := (recv e.backendChunks 4096).1
          if resp.length = 0 then
            { rr := rr2, backendOpened := true, backendIdx := some rr, sentToBackend := sent,
              sentToClient := [], backendClosed := true, clientClosed := true, logged := false }
          else
            match sendall e.clientSendSched resp with
            | none =>
              { rr := rr2, backendOpened := true, backendIdx := some rr, sentToBackend := sent,
                sentToClient := [], backendClosed := false, clientClosed := true, logged := true }
            | some sentR =>
              { rr := rr2, backendOpened := true, backendIdx := some rr, sentToBackend := sent,
                sentToClient := sentR, backendClosed := true, clientClosed := true, logged := false }

/-- Forwarder state carried across accept-loop iterations: the backend list
configured at startup and the round-robin cursor (`lb.py`, line 28). -/
structure LBState where
  servers : List (String × Nat)
  rr : Nat

/-- One accept-loop iteration: run the handler, keep the backend list, store
the new cursor. -/
def step (s : LBState) (e : ConnEnv) : LBState × HandleResult :=
  let r := handle s.servers s.rr e
  ({ servers := s.servers, rr := r.rr }, r)

/-- The accept loop (`lb.py`, lines 29-55) run over a finite schedule of
accepted connections, collecting each connection's observable outcome. -/
def runLoop (s : LBState) : List ConnEnv → List HandleResult × LBState
  | [] => ([], s)
  | e :: rest =>
    let p := step s e
    let q := runLoop p.1 rest
    (p.2 :: q.1, q.2)

/-- A stream is well-formed when every arrival segment is nonempty, as a real
`recv` returns the empty string only for a closed peer. -/
def chunksWF (chunks : List (List Byte)) : Prop := ∀ c ∈ chunks, c ≠ []

/-- A connection is well-formed when the 2-byte prefix read succeeds. -/
def wellFormed (e : ConnEnv) : Prop := ((read_n e.clientChunks 2).1).length = 2

/-- Some step of the backend exchange of this connection fails: the connect,
the `sendall` of the request, the `recv` of the response, or the `sendall` of
a nonempty response back to the client. -/
def exchangeFails (e : ConnEnv) : Prop :=
  e.connectOk = false ∨
  sendall e.backendSendSched (read_n e.clientChunks 2).1 = none ∨
  e.recvOk = false ∨
  ((recv e.backendChunks 4096).1 ≠ [] ∧
    sendall e.clientSendSched (recv e.backendChunks 4096).1 = none)

/-- A well-formed client that sends exactly two bytes, with a healthy backend. -/
def envOk : ConnEnv :=
  { clientChunks := [[1, 2]], connectOk := true, backendSendSched := [2],
    backendChunks := [[5, 6]], recvOk := true, clientSendSched := [4096] }

/-- A client that sends a single byte and then closes. -/
def envShort : ConnEnv :=
  { clientChunks := [[9]], connectOk := true, backendSendSched := [2],
    backendChunks := [[5]], recvOk := true, clientSendSched := [4096] }

/-- A well-formed client whose selected backend refuses the connection. -/
def envConnFail : ConnEnv :=
  { clientChunks := [[1, 2]], connectOk := false, backendSendSched := [2],
    backendChunks := [[3]], recvOk := true, clientSendSched := [1] }

/-- A well-formed client whose backend `recv` raises. -/
def envRecvFail : ConnEnv :=
  { clientChunks := [[8, 8]], connectOk := true, backendSendSched := [2],
    backendChunks := [[3]], recvOk := false, clientSendSched := [1] }

theorem recv_snd_flatten (c : List Byte) (cs : List (List Byte)) (k : Nat) :
    (recv (c :: cs) k).2.flatten = c.drop k ++ cs.flatten := by
  simp only [recv]
  split
  · next h => rw [h]; simp
  · simp

theorem recv_wf (chunks : List (List Byte)) (k : Nat) (h : chunksWF chunks) :
    chunksWF (recv chunks k).2 := by
  cases chunks with
  | nil => intro x hx; simp [recv] at hx
  | cons c cs =>
    simp only [recv]
    split
    · exact fun x hx => h x (List.mem_cons_of_mem _ hx)
    · next hd =>
      intro x hx
      rcases List.mem_cons.mp hx with h1 | h2
      · subst h1; exact hd
      · exact h x (List.mem_cons_of_mem _ h2)

theorem read_n_zero (chunks : List (List Byte)) : read_n chunks 0 = ([], chunks) := by
  rw [read_n]
  simp

theorem read_n_nil (n : Nat) (h : n ≠ 0) : read_n [] n = ([], []) := by
  rw [read_n]
  simp [recv, h]

theorem read_n_cons (c : List Byte) (cs : List (List Byte)) (n : Nat)
    (h0 : n ≠ 0) (hc : c ≠ []) :
    read_n (c :: cs) n =
      (c.take n ++ (read_n (recv (c :: cs) n).2 (n - (c.take n).length)).1,
       (read_n (recv (c :: cs) n).2 (n - (c.take n).length)).2) := by
  rw [read_n]
  have hne : (recv (c :: cs) n).1 ≠ [] := by
    simp only [recv]
    simp [List.take_eq_nil_iff, h0, hc]
  simp only [recv] at hne ⊢
  simp [h0, hne]

/-- On a well-formed stream, `read_n` reads exactly the first `n` bytes of the
stream (everything, when the stream is shorter) and leaves the rest unread. -/
theorem read_n_take_drop (n : Nat) (chunks : List (List Byte)) (hwf : chunksWF chunks) :
    (read_n chunks n).1 = chunks.flatten.take n ∧
    (read_n chunks n).2.flatten = chunks.flatten.drop n := by
  induction n using Nat.strong_induction_on generalizing chunks with
  | _ n ih =>
    by_cases h0 : n = 0
    · subst h0; simp [read_n_zero]
    cases chunks with
    | nil => simp [read_n_nil n h0]
    | cons c cs =>
      have hc : c ≠ [] := hwf c (List.mem_cons_self ..)
      have hL : (c.take n).length = min n c.length := List.length_take ..
      have hLpos : 0 < (c.take n).length := by
        rw [hL]
        have := List.length_pos.mpr hc
        omega
      have hrec := read_n_cons c cs n h0 hc
      have hih := ih (n - (c.take n).length) (by omega) (recv (c :: cs) n).2
        (recv_wf _ _ hwf)
      rw [hrec]
      constructor
      · rw [hih.1, recv_snd_flatten]
        rcases le_or_lt n c.length with hn | hn
        · have h1 : (c.take n).length = n := by omega
          rw [h1]
          simp [List.flatten_cons, List.take_append_eq_append_take,
            Nat.sub_eq_zero_of_le hn]
        · have h1 : (c.take n).length = c.length := by omega
          rw [h1, List.take_of_length_le (Nat.le_of_lt hn),
            List.drop_eq_nil_of_le (Nat.le_of_lt hn)]
          simp [List.flatten_cons, List.take_append_eq_append_take,
            List.take_of_length_le (Nat.le_of_lt hn)]
      · rw [hih.2, recv_snd_flatten]
        rcases le_or_lt n c.length with hn | hn
        · have h1 : (c.take n).length = n := by omega
          rw [h1]
          simp [List.flatten_cons, List.drop_append_eq_append_drop,
            Nat.sub_eq_zero_of_le hn]
        · have h1 : (c.take n).length = c.length := by omega
          rw [h1, List.drop_eq_nil_of_le (Nat.le_of_lt hn)]
          simp [List.flatten_cons, List.drop_append_eq_append_drop,
            List.drop_eq_nil_of_le (Nat.le_of_lt hn)]

theorem sendall_some (sched : List Nat) :
    ∀ buf d : List Byte, sendall sched buf = some d → d = buf := by
  induction sched with
  | nil =>
    intro buf d h
    simp only [sendall] at h
    split at h
    · next hb =>
      have hbuf : buf = [] := List.length_eq_zero.mp hb
      cases h
      exact hbuf.symm
    · cases h
  | cons cap rest ih =>
    intro buf d h
    simp only [sendall] at h
    split at h
    · next hb =>
      have hbuf : buf = [] := List.length_eq_zero.mp hb
      cases h
      exact hbuf.symm
    · rcases hm : sendall rest (buf.drop cap) with _ | d2 <;> rw [hm] at h <;> simp at h
      rw [← h, ih _ _ hm]
      exact List.take_append_drop ..

theorem handle_clientClosed_all (sv : List (String × Nat)) (rr : Nat) (e : ConnEnv) :
    (handle sv rr e).clientClosed = true := by
  simp only [handle]
  repeat' split
  all_goals rfl

theorem handle_close_policy (sv : List (String × Nat)) (rr : Nat) (e : ConnEnv) :
    (handle sv rr e).backendClosed =
      ((handle sv rr e).backendOpened && !(handle sv rr e).logged) := by
  simp only [handle]
  repeat' split
  all_goals rfl

theorem handle_rr_shape (sv : List (String × Nat)) (rr : Nat) (e : ConnEnv) :
    (handle sv rr e).rr = rr ∨ (handle sv rr e).rr = (rr + 1) % sv.length := by
  simp only [handle]
  repeat' split
  all_goals first | exact Or.inl rfl | exact Or.inr rfl

theorem handle_wf_fields (sv : List (String × Nat)) (rr : Nat) (e : ConnEnv)
    (hwf : wellFormed e) (hrr : rr < sv.length) :
    (handle sv rr e).backendIdx = some rr ∧
    (handle sv rr e).rr = (rr + 1) % sv.length ∧
    (handle sv rr e).backendOpened = true := by
  rw [wellFormed] at hwf
  have hA : ¬((read_n e.clientChunks 2).1.length ≠ 2) := by rw [hwf]; simp
  have hB : ¬(sv.length ≤ rr) := Nat.not_le.mpr hrr
  refine ⟨?_, ?_, ?_⟩ <;>
  · simp only [handle, if_neg hA, if_neg hB]
    repeat' split
    all_goals rfl

theorem runLoop_cons (s : LBState) (e : ConnEnv) (rest : List ConnEnv) :
    runLoop s (e :: rest) =
      ((handle s.servers s.rr e) ::
        (runLoop ⟨s.servers, (handle s.servers s.rr e).rr⟩ rest).1,
       (runLoop ⟨s.servers, (handle s.servers s.rr e).rr⟩ rest).2) := rfl

theorem runLoop_length (envs : List ConnEnv) :
    ∀ s : LBState, (runLoop s envs).1.length = envs.length := by
  induction envs with
  | nil => intro s; rfl
  | cons e rest ih =>
    intro s
    rw [runLoop_cons]
    simp [ih]

theorem runLoop_servers_eq (envs : List ConnEnv) :
    ∀ s : LBState, (runLoop s envs).2.servers = s.servers := by
  induction envs with
  | nil => intro s; rfl
  | cons e rest ih =>
    intro s
    rw [runLoop_cons]
    exact ih _

theorem runLoop_sel (envs : List ConnEnv) :
    ∀ (sv : List (String × Nat)) (rr : Nat), rr < sv.length →
    (∀ e ∈ envs, wellFormed e) →
    ∀ i, ∀ h : i < (runLoop ⟨sv, rr⟩ envs).1.length,
      ((runLoop ⟨sv, rr⟩ envs).1.get ⟨i, h⟩).backendIdx =
        some ((rr + i) % sv.length) := by
  induction envs with
  | nil =>
    intro sv rr hrr hwf i h
    rw [runLoop_length] at h
    exact absurd h (Nat.not_lt_zero i)
  | cons e rest ih =>
    intro sv rr hrr hwf i h
    have hfields := handle_wf_fields sv rr e (hwf e (List.mem_cons_self ..)) hrr
    have hlen : 0 < sv.length := Nat.lt_of_le_of_lt (Nat.zero_le rr) hrr
    match i with
    | 0 =>
      have h0 : ((runLoop ⟨sv, rr⟩ (e :: rest)).1.get ⟨0, h⟩) = handle sv rr e := rfl
      rw [h0, hfields.1, Nat.add_zero, Nat.mod_eq_of_lt hrr]
    | Nat.succ j =>
      have hrr2 : (rr + 1) % sv.length < sv.length := Nat.mod_lt _ hlen
      have hj : j < (runLoop ⟨sv, (handle sv rr e).rr⟩ rest).1.length := by
        rw [runLoop_length]
        rw [runLoop_length] at h
        simp at h
        omega
      have hget : ((runLoop ⟨sv, rr⟩ (e :: rest)).1.get ⟨j + 1, h⟩) =
          ((runLoop ⟨sv, (handle sv rr e).rr⟩ rest).1.get ⟨j, hj⟩) := rfl
      have hlists : (runLoop ⟨sv, (handle sv rr e).rr⟩ rest).1 =
          (runLoop ⟨sv, (rr + 1) % sv.length⟩ rest).1 := by rw [hfields.2.1]
      rw [hget, List.get_of_eq hlists]
      rw [ih sv ((rr + 1) % sv.length) hrr2 (fun x hx => hwf x (List.mem_cons_of_mem _ hx))]
      rw [Nat.mod_add_mod]
      show some ((rr + 1 + j) % sv.length) = some ((rr + Nat.succ j) % sv.length)
      congr 2
      omega

theorem runLoop_rr_lt (envs : List ConnEnv) :
    ∀ (sv : List (String × Nat)) (rr : Nat), 0 < sv.length → rr < sv.length →
      (runLoop ⟨sv, rr⟩ envs).2.rr < sv.length ∧
      ∀ r ∈ (runLoop ⟨sv, rr⟩ envs).1, r.rr < sv.length := by
  induction envs with
  | nil =>
    intro sv rr h hrr
    refine ⟨hrr, ?_⟩
    intro r hr
    simp [runLoop] at hr
  | cons e rest ih =>
    intro sv rr h hrr
    have hstep : (handle sv rr e).rr < sv.length := by
      rcases handle_rr_shape sv rr e with h1 | h1 <;> rw [h1]
      · exact hrr
      · exact Nat.mod_lt _ h
    have hres := ih sv (handle sv rr e).rr h hstep
    constructor
    · rw [runLoop_cons]
      exact hres.1
    · intro r hr
      rw [runLoop_cons] at hr
      rcases List.mem_cons.mp hr with h1 | h2
      · rw [h1]; exact hstep
      · exact hres.2 r h2

/-- C1: in every run in which all accepted clients are well-formed (each
delivers exactly 2 bytes), the Nth client (0-based index `i`) is forwarded to
backend `i % len`, the cyclic sequence 0,1,2,0,... over a nonempty pool:
selection reads `servers[rr_index]` and then advances `rr_index` to
`(rr_index + 1) % len(servers)`. -/
theorem claim_C1_round_robin (sv : List (String × Nat)) (envs : List ConnEnv)
    (hsv : 0 < sv.length) (hwf : ∀ e ∈ envs, wellFormed e)
    (i : Nat) (h : i < (runLoop ⟨sv, 0⟩ envs).1.length) :
    ((runLoop ⟨sv, 0⟩ envs).1.get ⟨i, h⟩).backendIdx = some (i % sv.length) := by
  have hsel := runLoop_sel envs sv 0 hsv hwf i h
  simpa using hsel

/-- C1 witness: with the concrete 3-backend pool, the fourth of four
well-formed clients is forwarded to backend 0 again. -/
theorem claim_C1_witness :
    ∃ h : 3 < (runLoop ⟨servers, 0⟩ [envOk, envOk, envOk, envOk]).1.length,
      ((runLoop ⟨servers, 0⟩ [envOk, envOk, envOk, envOk]).1.get ⟨3, h⟩).backendIdx
        = some 0 := by
  have hwfOk : wellFormed envOk := by
    simp [wellFormed, envOk, read_n, recv]
  have hwf : ∀ e ∈ [envOk, envOk, envOk, envOk], wellFormed e := by
    intro e he
    simp only [List.mem_cons, List.not_mem_nil, or_false] at he
    rcases he with rfl | rfl | rfl | rfl <;> exact hwfOk
  have h3 : 3 < (runLoop ⟨servers, 0⟩ [envOk, envOk, envOk, envOk]).1.length := by
    rw [runLoop_length]
    simp
  refine ⟨h3, ?_⟩
  have hmain := claim_C1_round_robin servers [envOk, envOk, envOk, envOk]
    (by simp [servers]) hwf 3 h3
  simpa [servers] using hmain

/-- C2: a client delivering fewer than 2 bytes before closing is aborted: the
cursor is unchanged, no backend socket is opened, no backend is selected,
nothing is sent in either direction, and the client socket is closed. -/
theorem claim_C2_short_request_abort (sv : List (String × Nat)) (rr : Nat)
    (e : ConnEnv) (hwf : chunksWF e.clientChunks)
    (hshort : e.clientChunks.flatten.length < 2) :
    (handle sv rr e).rr = rr ∧
    (handle sv rr e).backendOpened = false ∧
    (handle sv rr e).backendIdx = none ∧
    (handle sv rr e).sentToBackend = [] ∧
    (handle sv rr e).sentToClient = [] ∧
    (handle sv rr e).clientClosed = true := by
  have hreq : ((read_n e.clientChunks 2).1).length ≠ 2 := by
    rw [(read_n_take_drop 2 e.clientChunks hwf).1, List.length_take]
    omega
  simp only [handle, if_pos hreq]
  simp

/-- C2 witness: a client that sends a single byte and closes is dropped with
the cursor untouched. -/
theorem claim_C2_witness :
    (handle servers 2 envShort).rr = 2 ∧
    (handle servers 2 envShort).backendOpened = false ∧
    (handle servers 2 envShort).backendIdx = none ∧
    (handle servers 2 envShort).sentToBackend = [] ∧
    (handle servers 2 envShort).sentToClient = [] ∧
    (handle servers 2 envShort).clientClosed = true :=
  claim_C2_short_request_abort servers 2 envShort
    (by show ∀ c ∈ envShort.clientChunks, c ≠ []; decide)
    (by decide)

/-- C3 counterexample: the code transmits with `socket.sendall`, not a single
best-effort `send`.  On a schedule where each send call is only allowed 1
byte, `sendall` still delivers the whole 2-byte buffer, while the single
best-effort send of the claim would deliver only the first byte. -/
theorem claim_C3_counterexample :
    sendall [1, 1] [10, 20] = some [10, 20] ∧
    send_single [1, 1] [10, 20] ≠ [10, 20] := by
  constructor
  · rfl
  · decide

/-- C3 amended: both transmissions use `socket.sendall`, which loops over
`send` calls until the entire buffer has been delivered (or an error occurs):
whenever `sendall` succeeds, the delivered bytes are exactly the whole
buffer — full delivery is guaranteed, not best-effort. -/
theorem claim_C3_amended_sendall_delivers_all (sched : List Nat)
    (buf d : List Byte) (h : sendall sched buf = some d) : d = buf :=
  sendall_some sched buf d h

/-- C3 witness: on a 1-byte-per-call schedule the whole 2-byte buffer is
delivered. -/
theorem claim_C3_witness : ([10, 20] : List Byte) = [10, 20] :=
  claim_C3_amended_sendall_delivers_all [1, 1] [10, 20] [10, 20] (by decide)

/-- C4 counterexample: when the connect to the selected backend fails, the
handler opens a backend socket but never closes it (`serv.close()` at line 51
is reached only on the success path), refuting closure on every exit path. -/
theorem claim_C4_counterexample :
    (handle servers 0 envConnFail).backendOpened = true ∧
    (handle servers 0 envConnFail).backendClosed = false := by
  constructor <;> simp [handle, servers, envConnFail, read_n, recv]

/-- C4 amended: the backend socket is closed exactly on the exit paths on
which no error is logged (the success paths, including a zero-byte backend
response); on every error exit path (connect, backend send, backend recv, or
client send failure) the opened backend socket is left unclosed. -/
theorem claim_C4_amended_close_policy (sv : List (String × Nat)) (rr : Nat)
    (e : ConnEnv) :
    (handle sv rr e).backendClosed =
      ((handle sv rr e).backendOpened && !(handle sv rr e).logged) :=
  handle_close_policy sv rr e

/-- C5: on a well-formed request with a healthy exchange, the backend receives
exactly the 2-byte request; a single read of at most 4096 bytes is taken from
the backend response stream, and the client is sent exactly that chunk — the
first arrival segment truncated to 4096 bytes, verbatim; when the backend
closes without sending anything, nothing is sent to the client. -/
theorem claim_C5_single_chunk_relay (sv : List (String × Nat)) (rr : Nat)
    (e : ConnEnv) (hwf : wellFormed e) (hrr : rr < sv.length)
    (hconn : e.connectOk = true)
    (hsendB : sendall e.backendSendSched (read_n e.clientChunks 2).1 ≠ none)
    (hrecv : e.recvOk = true)
    (hsendC : sendall e.clientSendSched ((recv e.backendChunks 4096).1) ≠ none) :
    (handle sv rr e).sentToBackend = (read_n e.clientChunks 2).1 ∧
    (handle sv rr e).sentToClient = (e.backendChunks.headD []).take 4096 ∧
    (handle sv rr e).sentToClient.length ≤ 4096 ∧
    (e.backendChunks.flatten = [] → (handle sv rr e).sentToClient = []) := by
  have hA : ¬(((read_n e.clientChunks 2).1).length ≠ 2) := by
    rw [wellFormed] at hwf
    rw [hwf]
    simp
  have hB : ¬(sv.length ≤ rr) := Nat.not_le.mpr hrr
  obtain ⟨d, hd⟩ := Option.ne_none_iff_exists'.mp hsendB
  have hdEq : d = (read_n e.clientChunks 2).1 := sendall_some _ _ _ hd
  obtain ⟨d2, hd2⟩ := Option.ne_none_iff_exists'.mp hsendC
  have hd2Eq : d2 = (recv e.backendChunks 4096).1 := sendall_some _ _ _ hd2
  have hfst : (recv e.backendChunks 4096).1 = (e.backendChunks.headD []).take 4096 := by
    cases e.backendChunks <;> rfl
  have hh : handle sv rr e =
      if ((recv e.backendChunks 4096).1).length = 0 then
        { rr := (rr + 1) % sv.length, backendOpened := true, backendIdx := some rr,
          sentToBackend := d, sentToClient := [], backendClosed := true,
          clientClosed := true, logged := false }
      else
        { rr := (rr + 1) % sv.length, backendOpened := true, backendIdx := some rr,
          sentToBackend := d, sentToClient := d2, backendClosed := true,
          clientClosed := true, logged := false } := by
    simp only [handle, if_neg hA, if_neg hB, hconn, hd, hrecv]
    simp [hd2]
  have hhead : e.backendChunks.flatten = [] → (e.backendChunks.headD []) = [] := by
    intro hflat
    rcases hbc : e.backendChunks with _ | ⟨c, cs⟩
    · rfl
    · rw [hbc] at hflat
      simp only [List.flatten_cons, List.append_eq_nil] at hflat
      simp [hflat.1]
  rw [hh]
  by_cases hresp : ((recv e.backendChunks 4096).1).length = 0
  · rw [if_pos hresp]
    have hrespNil : (recv e.backendChunks 4096).1 = [] := List.length_eq_zero.mp hresp
    refine ⟨hdEq, ?_, by simp, fun _ => rfl⟩
    show ([] : List Byte) = (e.backendChunks.headD []).take 4096
    rw [← hfst, hrespNil]
  · rw [if_neg hresp]
    refine ⟨hdEq, ?_, ?_, ?_⟩
    · show d2 = (e.backendChunks.headD []).take 4096
      rw [hd2Eq, hfst]
    · show d2.length ≤ 4096
      rw [hd2Eq, hfst, List.length_take]
      omega
    · intro hflat
      show d2 = []
      rw [hd2Eq, hfst, hhead hflat]
      rfl

/-- C5 witness: a healthy exchange on the concrete pool relays the backend's
first chunk verbatim. -/
theorem claim_C5_witness :
    (handle servers 0 envOk).sentToBackend = (read_n envOk.clientChunks 2).1 ∧
    (handle servers 0 envOk).sentToClient = (envOk.backendChunks.headD []).take 4096 ∧
    (handle servers 0 envOk).sentToClient.length ≤ 4096 ∧
    (envOk.backendChunks.flatten = [] → (handle servers 0 envOk).sentToClient = []) :=
  claim_C5_single_chunk_relay servers 0 envOk
    (by simp [wellFormed, envOk, read_n, recv])
    (by simp [servers])
    rfl
    (by simp [envOk, read_n, recv, sendall])
    rfl
    (by simp [envOk, recv, sendall])

/-- C6: any failure during the backend exchange of a well-formed connection is
logged and contained: the loop goes on to handle the remaining connections
unchanged, no retry or failover happens for this connection (the only backend
contacted is the one selected), and — the cursor having advanced at selection
time — the next well-formed client is assigned the next backend in cyclic
order, unaffected by the failure. -/
theorem claim_C6_error_contained (sv : List (String × Nat)) (rr : Nat)
    (e : ConnEnv) (rest : List ConnEnv) (hwf : wellFormed e)
    (hrr : rr < sv.length) (hfail : exchangeFails e) :
    (handle sv rr e).logged = true ∧
    (handle sv rr e).rr = (rr + 1) % sv.length ∧
    (handle sv rr e).backendIdx = some rr ∧
    runLoop ⟨sv, rr⟩ (e :: rest) =
      ((handle sv rr e) :: (runLoop ⟨sv, (handle sv rr e).rr⟩ rest).1,
       (runLoop ⟨sv, (handle sv rr e).rr⟩ rest).2) ∧
    (∀ e2, wellFormed e2 →
      (handle sv ((handle sv rr e).rr) e2).backendIdx = some ((rr + 1) % sv.length)) := by
  have hfields := handle_wf_fields sv rr e hwf hrr
  have hlen : 0 < sv.length := Nat.lt_of_le_of_lt (Nat.zero_le rr) hrr
  have hA : ¬(((read_n e.clientChunks 2).1).length ≠ 2) := by
    rw [wellFormed] at hwf
    rw [hwf]
    simp
  have hB : ¬(sv.length ≤ rr) := Nat.not_le.mpr hrr
  have hlog : (handle sv rr e).logged = true := by
    cases hc : e.connectOk with
    | false => simp [handle, hA, hB, hc]
    | true =>
      rcases hs : sendall e.backendSendSched (read_n e.clientChunks 2).1 with _ | d
      · simp [handle, hA, hB, hc, hs]
      · cases hr : e.recvOk with
        | false => simp [handle, hA, hB, hc, hs, hr]
        | true =>
          by_cases hresp : ((recv e.backendChunks 4096).1).length = 0
          · exfalso
            rcases hfail with h1 | h2 | h3 | h4
            · rw [hc] at h1; cases h1
            · rw [hs] at h2; cases h2
            · rw [hr] at h3; cases h3
            · exact h4.1 (List.length_eq_zero.mp hresp)
          · rcases hs2 : sendall e.clientSendSched ((recv e.backendChunks 4096).1)
              with _ | d2
            · simp [handle, hA, hB, hc, hs, hr, hresp, hs2]
            · exfalso
              rcases hfail with h1 | h2 | h3 | h4
              · rw [hc] at h1; cases h1
              · rw [hs] at h2; cases h2
              · rw [hr] at h3; cases h3
              · rw [hs2] at h4; cases h4.2
  refine ⟨hlog, hfields.2.1, hfields.1, runLoop_cons ⟨sv, rr⟩ e rest, ?_⟩
  intro e2 hwf2
  rw [hfields.2.1]
  exact (handle_wf_fields sv ((rr + 1) % sv.length) e2 hwf2 (Nat.mod_lt _ hlen)).1

/-- C6 witness: a backend whose recv raises mid-exchange is logged, the cursor
still advances, and the loop continues. -/
theorem claim_C6_witness :
    (handle servers 1 envRecvFail).logged = true ∧
    (handle servers 1 envRecvFail).rr = (1 + 1) % servers.length ∧
    (handle servers 1 envRecvFail).backendIdx = some 1 ∧
    runLoop ⟨servers, 1⟩ (envRecvFail :: []) =
      ((handle servers 1 envRecvFail) ::
        (runLoop ⟨servers, (handle servers 1 envRecvFail).rr⟩ []).1,
       (runLoop ⟨servers, (handle servers 1 envRecvFail).rr⟩ []).2) ∧
    (∀ e2, wellFormed e2 →
      (handle servers ((handle servers 1 envRecvFail).rr) e2).backendIdx =
        some ((1 + 1) % servers.length)) :=
  claim_C6_error_contained servers 1 envRecvFail []
    (by simp [wellFormed, envRecvFail, read_n, recv])
    (by simp [servers])
    (Or.inr (Or.inr (Or.inl rfl)))

/-- C7: with a nonempty backend list, the round-robin cursor stays in
`[0, len(servers))` in every reachable state of the loop started from the
initial cursor 0, and every handler either leaves the cursor unchanged or
takes it to `(rr + 1) % len(servers)`. -/
theorem claim_C7_cursor_invariant (sv : List (String × Nat))
    (envs : List ConnEnv) (h : 0 < sv.length) :
    (runLoop ⟨sv, 0⟩ envs).2.rr < sv.length ∧
    (∀ r ∈ (runLoop ⟨sv, 0⟩ envs).1, r.rr < sv.length) ∧
    (∀ rr e, (handle sv rr e).rr = rr ∨
      (handle sv rr e).rr = (rr + 1) % sv.length) := by
  refine ⟨(runLoop_rr_lt envs sv 0 h h).1, (runLoop_rr_lt envs sv 0 h h).2, ?_⟩
  intro rr e
  exact handle_rr_shape sv rr e

/-- C7 witness: the invariant holds on a concrete two-connection run over the
3-backend pool. -/
theorem claim_C7_witness :
    (runLoop ⟨servers, 0⟩ [envOk, envShort]).2.rr < servers.length :=
  (claim_C7_cursor_invariant servers [envOk, envShort] (by simp [servers])).1

/-- C8: the client socket is closed on every exit path of the handler — the
short-request abort, the success path, and every error path — before the loop
moves to the next connection. -/
theorem claim_C8_client_always_closed (sv : List (String × Nat)) (rr : Nat)
    (e : ConnEnv) :
    (handle sv rr e).clientClosed = true :=
  handle_clientClosed_all sv rr e

/-- C9: across any number of loop iterations the backend list is unchanged in
contents and order; a step changes nothing of the forwarder state except the
round-robin cursor, which takes the handler's final cursor value. -/
theorem claim_C9_servers_frame (s : LBState) (envs : List ConnEnv) (e : ConnEnv) :
    (runLoop s envs).2.servers = s.servers ∧
    (step s e).1.servers = s.servers ∧
    (step s e).1 = { servers := s.servers, rr := (handle s.servers s.rr e).rr } :=
  ⟨runLoop_servers_eq envs s, rfl, rfl⟩

/-- C10: on a well-formed stream, `read_n` returns exactly the first `n` bytes
of the stream — a prefix of length at most `n`, of length exactly `n` whenever
the stream holds at least `n` bytes (so a 2-byte check can fail only on a
short read, never on an over-long client) — and the bytes beyond the first `n`
are left unconsumed in the stream. -/
theorem claim_C10_read_n_prefix (chunks : List (List Byte)) (n : Nat)
    (hwf : chunksWF chunks) :
    (read_n chunks n).1 = chunks.flatten.take n ∧
    (read_n chunks n).1.length ≤ n ∧
    (read_n chunks n).2.flatten = chunks.flatten.drop n ∧
    (n ≤ chunks.flatten.length → (read_n chunks n).1.length = n) := by
  obtain ⟨h1, h2⟩ := read_n_take_drop n chunks hwf
  refine ⟨h1, ?_, h2, ?_⟩
  · rw [h1, List.length_take]
    omega
  · intro hn
    rw [h1, List.length_take]
    omega

/-- C10 witness: reading 2 bytes from a client that sends 3 bytes in two
segments consumes exactly the first 2 and leaves the third in the stream. -/
theorem claim_C10_witness :
    (read_n [[1], [2, 3]] 2).1 = [1, 2] ∧
    (read_n [[1], [2, 3]] 2).2.flatten = [3] := by
  have h := claim_C10_read_n_prefix [[1], [2, 3]] 2
    (by show ∀ c ∈ ([[1], [2, 3]] : List (List Byte)), c ≠ []; decide)
  exact ⟨by rw [h.1]; rfl, by rw [h.2.2.1]; rfl⟩

end LB
